import Mathlib

/-
Verification development for the Concord chat server (src/server.py).

The server keeps two insertion-ordered dictionaries: `clients` mapping a
nickname to a client record (socket, optional current room) and `rooms`
mapping a room name to its member dictionary.  Python dictionaries are
modelled as association lists with unique keys; `del` on a missing key is
modelled as a `keyError` result, mirroring Python's KeyError exception.
Socket sends are modelled as pairs (socket id, text).  In the session-level
operations every send succeeds; the static `Server.broadcast` additionally
models send failures through a set of closed sockets, mirroring the
exception a closed TCP peer raises.
-/

set_option autoImplicit false

/-- Python exceptions that the relevant code paths can raise:
`keyError` for a dictionary access on a missing key, `sendError s` for a
socket send that fails because peer `s` is closed. -/
inductive PyErr where
  | keyError
  | sendError (sock : Nat)
deriving Repr, DecidableEq

/-- A completed socket send: (socket id, text sent). -/
abbrev Send := Nat × String

/-- The per-client record `{'address': ..., 'socket': socket, 'room': room}`
kept in `self.clients` (the address plays no role in the verified paths). -/
structure Client where
  sock : Nat
  room : Option String
deriving Repr, DecidableEq

/-- A room's `'users'` dictionary: nickname to that client's socket
(the stored client object is only ever used for its socket). -/
abbrev Users := List (String × Nat)

/-- The server's shared mutable data: `self.clients` and `self.rooms`. -/
structure ServerState where
  clients : List (String × Client)
  rooms : List (String × Users)
deriving Repr, DecidableEq

namespace PyDict

variable {α : Type}

/-- `d[k]` as a partial lookup: first binding of key `k`. -/
def lookup : List (String × α) → String → Option α
  | [], _ => none
  | p :: l, k => if p.1 = k then some p.2 else lookup l k

/-- `k in d.keys()`. -/
def contains (l : List (String × α)) (k : String) : Bool :=
  (lookup l k).isSome

/-- `d[k] = v`: update the binding in place when present, append otherwise
(Python dicts keep insertion order and update in place). -/
def set : List (String × α) → String → α → List (String × α)
  | [], k, v => [(k, v)]
  | p :: l, k, v => if p.1 = k then (k, v) :: l else p :: set l k v

/-- Removal of key `k` (all bindings; with unique keys this is `del d[k]`). -/
def eraseKey (l : List (String × α)) (k : String) : List (String × α) :=
  l.filter (fun p => !(p.1 == k))

/-- `del d[k]`: KeyError when the key is absent. -/
def eraseE (l : List (String × α)) (k : String) : Except PyErr (List (String × α)) :=
  if contains l k then .ok (eraseKey l k) else .error .keyError

/-- `d[k]` as an expression: KeyError when the key is absent. -/
def get (l : List (String × α)) (k : String) : Except PyErr α :=
  match lookup l k with
  | some v => .ok v
  | none => .error .keyError

/-- `d[k]` where `k` may be Python `None`; `d[None]` raises KeyError since
the server's dictionaries only ever hold string keys. -/
def getOpt (l : List (String × α)) (k : Option String) : Except PyErr α :=
  match k with
  | some s => get l s
  | none => .error .keyError

/-- Update at a possibly-`None` key (only reached with a present key). -/
def setOpt (l : List (String × α)) (k : Option String) (v : α) : List (String × α) :=
  match k with
  | some s => set l s v
  | none => l

/-- `d.keys()`. -/
def keys (l : List (String × α)) : List String := l.map Prod.fst

/-- `d.values()`. -/
def values (l : List (String × α)) : List α := l.map Prod.snd

end PyDict

/-- Validity of one room reference: a non-null room must be a key of the
rooms registry. -/
def roomValid (rooms : List (String × Users)) (ro : Option String) : Bool :=
  match ro with
  | some r => PyDict.contains rooms r
  | none => true

/-- Bidirectional room-membership consistency of the shared directory:
every client's room reference points at a registered room, every member
entry of a room belongs to a registered client whose room reference is that
room, and every client referencing a room appears in that room's member
dictionary. -/
def Consistent (s : ServerState) : Prop :=
  (∀ p ∈ s.clients, roomValid s.rooms p.2.room = true) ∧
  (∀ q ∈ s.rooms, ∀ u ∈ q.2,
      (PyDict.lookup s.clients u.1).map Client.room = some (some q.1)) ∧
  (∀ p ∈ s.clients, ∀ q ∈ s.rooms, p.2.room = some q.1 →
      PyDict.contains q.2 p.1 = true)

instance decidableConsistent (s : ServerState) : Decidable (Consistent s) := by
  unfold Consistent
  infer_instance

/-- Well-formedness of the dictionary representation: unique keys, as in
every Python dict. -/
def WF (s : ServerState) : Prop :=
  (s.clients.map Prod.fst).Nodup ∧ (s.rooms.map Prod.fst).Nodup ∧
  ∀ q ∈ s.rooms, (q.2.map Prod.fst).Nodup

instance decidableWF (s : ServerState) : Decidable (WF s) := by
  unfold WF
  infer_instance

/-- Characters matched by the regex class `\s` that can occur inside a
single-line frame (frames are modelled without newline characters). -/
def isPySpace (c : Char) : Bool :=
  c = ' ' || c = '\t' || c = '\r' || c = Char.ofNat 11 || c = Char.ofNat 12

/-- The opening brace character. -/
def lbrace : Char := Char.ofNat 123

/-- The closing brace character. -/
def rbrace : Char := Char.ofNat 125

/-- The greedy regex fragment `{(.*)}$`: the text between the opening brace
and the final closing brace. -/
def bracedArg (cs : List Char) : Option String :=
  match cs with
  | c :: rest =>
    if c = lbrace ∧ rest.getLast? = some rbrace then some (String.mk rest.dropLast)
    else none
  | [] => none

/-- First keyword of the alternation that is a prefix of the input, with the
rest of the input (the server's keyword alternations are pairwise
non-prefix, so at most one alternative can apply). -/
def keywordSplit : List String → List Char → Option (String × List Char)
  | [], _ => none
  | kw :: kws, cs =>
    if kw.data.isPrefixOf cs then some (kw, cs.drop kw.data.length)
    else keywordSplit kws cs

/-- Tail of the AwaitingName regex after the keyword: `\s*(?:{(.*)})?$`. -/
def insertTail (cs : List Char) : Option (Option String) :=
  let rest := cs.dropWhile isPySpace
  if rest = [] then some none
  else (bracedArg rest).map some

/-- Tail of the Active-state regex after the keyword: `(?:\s*{(.*)})?$`
(here the whitespace sits inside the optional group). -/
def commandTail (cs : List Char) : Option (Option String) :=
  if cs = [] then some none
  else (bracedArg (cs.dropWhile isPySpace)).map some

/-- `re.match` against the AwaitingName regex
`^\\(quit|insert)\s*(?:{(.*)})?$` for single-line frames: the matched
keyword and the optional brace-delimited argument group. -/
def insertMatch (msg : String) : Option (String × Option String) :=
  match msg.data with
  | c :: rest =>
    if c = '\\' then
      match keywordSplit ["quit", "insert"] rest with
      | some (kw, tl) => (insertTail tl).map (fun a => (kw, a))
      | none => none
    else none
  | [] => none

/-- `re.match` against `self.commands_re`, i.e.
`^\\(quit|leave|join|rooms|online|create)(?:\s*{(.*)})?$`,
for single-line frames. -/
def commandMatch (msg : String) : Option (String × Option String) :=
  match msg.data with
  | c :: rest =>
    if c = '\\' then
      match keywordSplit ["quit", "leave", "join", "rooms", "online", "create"] rest with
      | some (kw, tl) => (commandTail tl).map (fun a => (kw, a))
      | none => none
    else none
  | [] => none

namespace Server

/-- The `for recipient in recipients` loop inside `Server.broadcast`: sends
`text` to each recipient in order; a recipient whose connection is closed
raises, which aborts the loop.  Returns the sends that completed and the
escaping exception, if any. -/
def sendLoop (closed : List Nat) (text : String) : List Nat → List Send × Option PyErr
  | [] => ([], none)
  | r :: rs =>
    if closed.contains r then ([], some (.sendError r))
    else
      let (ds, e) := sendLoop closed text rs
      ((r, text) :: ds, e)

/-- `Server.broadcast(msg, recipients, prefix)` (static method, lines
327-342): prefixed text when the prefix tag is non-empty, the raw message
otherwise; no exception handling around the sends. -/
def broadcast (closed : List Nat) (msg : String) (recipients : List Nat) (pre : String) :
    List Send × Option PyErr :=
  if pre ≠ "" then sendLoop closed ("[" ++ pre ++ "]: " ++ msg) recipients
  else sendLoop closed msg recipients

/-- `Server.room_announce` (lines 231-240): broadcast to every socket in the
room's users dictionary; a `None` room is a no-op, a dangling room name
raises KeyError.  Session-level sends are modelled as always succeeding. -/
def room_announce (s : ServerState) (msg : String) (room : Option String) (pre : String) :
    Except PyErr (List Send) :=
  match room with
  | none => .ok []
  | some r =>
    match PyDict.lookup s.rooms r with
    | none => .error .keyError
    | some users => .ok (broadcast [] msg (PyDict.values users) pre).1

/-- `Server.get_online_users` (lines 242-253). -/
def get_online_users (s : ServerState) (room : Option String) : String :=
  match room with
  | none => "\\online=no_room"
  | some r =>
    match PyDict.lookup s.rooms r with
    | some users => "\\online=" ++ String.intercalate "|" (PyDict.keys users)
    | none => "\\online=no_room"

/-- `Server.join_room` (lines 255-276): when the room exists, point the
client's room reference at it, add the client to the room's users, confirm
to the requester, then broadcast the updated online list; otherwise reply
failure and change nothing. -/
def join_room (s : ServerState) (user_nick : String) (room : Option String)
    (user_sock : Nat) : Except PyErr (ServerState × List Send) :=
  match room with
  | some r =>
    if PyDict.contains s.rooms r then do
      let c ← PyDict.get s.clients user_nick
      let s1 : ServerState :=
        { s with clients := PyDict.set s.clients user_nick { c with room := some r } }
      let users ← PyDict.get s1.rooms r
      let s2 : ServerState :=
        { s1 with rooms := PyDict.set s1.rooms r (PyDict.set users user_nick c.sock) }
      let ds ← room_announce s2 (get_online_users s2 (some r)) (some r) ""
      .ok (s2, (user_sock, "\\join=success") :: ds)
    else
      .ok (s, [(user_sock, "\\join=failure")])
  | none => .ok (s, [(user_sock, "\\join=failure")])

/-- `Server.leave_room` (lines 278-306): when the client has a room, confirm,
remove it from the room's users, delete the room when it became empty or
announce the updated online list otherwise, and clear the client's room
reference; otherwise reply `no_room`. -/
def leave_room (s : ServerState) (user_nick : String) (user_sock : Nat) :
    Except PyErr (ServerState × List Send) := do
  let c ← PyDict.get s.clients user_nick
  match c.room with
  | some room_name => do
    let users ← PyDict.get s.rooms room_name
    let users' ← PyDict.eraseE users user_nick
    let s1 : ServerState := { s with rooms := PyDict.set s.rooms room_name users' }
    if users'.length = 0 then do
      let rooms' ← PyDict.eraseE s1.rooms room_name
      let s2 : ServerState := { s1 with rooms := rooms' }
      let s3 : ServerState :=
        { s2 with clients := PyDict.set s2.clients user_nick { c with room := none } }
      .ok (s3, [(user_sock, "\\leave=success")])
    else do
      let ds ← room_announce s1 (get_online_users s1 c.room) (some room_name) ""
      let s2 : ServerState :=
        { s1 with clients := PyDict.set s1.clients user_nick { c with room := none } }
      .ok (s2, (user_sock, "\\leave=success") :: ds)
  | none => .ok (s, [(user_sock, "\\leave=no_room")])

/-- `Server.create_room` (lines 308-325): insert an empty room when the name
is unused and the brace argument was present (`is not None`); otherwise
reply failure. -/
def create_room (s : ServerState) (room_name : Option String) (user_sock : Nat) :
    Except PyErr (ServerState × List Send) :=
  match room_name with
  | some r =>
    if PyDict.contains s.rooms r then .ok (s, [(user_sock, "\\create=failure")])
    else
      .ok ({ s with rooms := PyDict.set s.rooms r [] },
           [(user_sock, "\\create=success")])
  | none => .ok (s, [(user_sock, "\\create=failure")])

/-- The `quit` branch of the Active-state dispatcher (lines 175-182):
`leave_room`, then `del self.clients[nick]`, then the `quit=success`
reply and the close. -/
def quitCommand (s : ServerState) (nick : String) (sock : Nat) :
    Except PyErr (ServerState × List Send) := do
  let (s1, ds) ← leave_room s nick sock
  let clients' ← PyDict.eraseE s1.clients nick
  .ok ({ s1 with clients := clients' }, ds ++ [(sock, "\\quit=success")])

/-- Outcome of one Active-state frame: `halt` when the handler returns
(explicit quit), `next` when the loop continues. -/
inductive ActiveResult where
  | halt (s : ServerState) (replies : List Send)
  | next (s : ServerState) (replies : List Send)
deriving Repr, DecidableEq

/-- One iteration of the Active-state loop of `Server.handle_connection`
(lines 164-210): dispatch on `self.commands_re`, falling through to a room
chat broadcast for non-matching frames. -/
def activeStep (s : ServerState) (nick : String) (sock : Nat) (msg : String) :
    Except PyErr ActiveResult :=
  match commandMatch msg with
  | some (command, argument) =>
    if command = "quit" then do
      let (s', ds) ← quitCommand s nick sock
      .ok (.halt s' ds)
    else if command = "rooms" then
      .ok (.next s [(sock, "\\rooms=" ++ String.intercalate "|" (PyDict.keys s.rooms))])
    else if command = "online" then
      .ok (.next s [(sock, get_online_users s argument)])
    else if command = "join" then do
      let (s', ds) ← join_room s nick argument sock
      .ok (.next s' ds)
    else if command = "leave" then do
      let (s', ds) ← leave_room s nick sock
      .ok (.next s' ds)
    else do
      let (s', ds) ← create_room s argument sock
      .ok (.next s' ds)
  | none => do
    let c ← PyDict.get s.clients nick
    let ds ← room_announce s msg c.room nick
    .ok (.next s ds)

/-- Outcome of one AwaitingName frame (lines 135-158): `quit` closes the
connection, `registered` enters the Active state, `retry` stays in
AwaitingName with the replies sent (possibly none). -/
inductive NameStepResult where
  | quit (replies : List Send)
  | registered (s : ServerState) (nick : String)
  | retry (s : ServerState) (replies : List Send)
deriving Repr, DecidableEq

/-- One iteration of the AwaitingName loop of `Server.handle_connection`:
match against `insert_regexp`; `\quit` quits, `\insert{name}` registers an
available name or replies `not_valid_nickname` for a taken one, a matching
`\insert` whose argument group is missing takes neither branch (no reply),
and a non-matching frame replies `not_valid_nickname`. -/
def nameStep (s : ServerState) (sock : Nat) (msg : String) : NameStepResult :=
  match insertMatch msg with
  | some (command, nickOpt) =>
    if command = "quit" then .quit [(sock, "\\quit=success")]
    else
      match nickOpt with
      | some nick =>
        if PyDict.contains s.clients nick then
          .retry s [(sock, "\\insert=not_valid_nickname")]
        else
          .registered { s with clients := PyDict.set s.clients nick ⟨sock, none⟩ } nick
      | none => .retry s []
  | none => .retry s [(sock, "\\insert=not_valid_nickname")]

/-- The `except ConnectionResetError` handler of `handle_connection`
(lines 213-221): announce the departure to the client's current room, then
`del self.rooms[self.clients[nick]['room']]['users'][nick]` and
`del self.clients[nick]`.  A raised KeyError escapes the handler. -/
def connectionResetCleanup (s : ServerState) (nick : String) :
    Except PyErr (ServerState × List Send) :=
  if nick = "" then .ok (s, [])
  else do
    let c ← PyDict.get s.clients nick
    let ds ← room_announce s (nick ++ " has left the chat") c.room "Server"
    let users ← PyDict.getOpt s.rooms c.room
    let users' ← PyDict.eraseE users nick
    let s1 : ServerState := { s with rooms := PyDict.setOpt s.rooms c.room users' }
    let clients' ← PyDict.eraseE s1.clients nick
    .ok ({ s1 with clients := clients' }, ds)

/-- The `except BrokenPipeError` handler of `handle_connection`
(lines 222-229): as the reset handler but with no departure announcement. -/
def brokenPipeCleanup (s : ServerState) (nick : String) :
    Except PyErr (ServerState × List Send) :=
  if nick = "" then .ok (s, [])
  else do
    let c ← PyDict.get s.clients nick
    let users ← PyDict.getOpt s.rooms c.room
    let users' ← PyDict.eraseE users nick
    let s1 : ServerState := { s with rooms := PyDict.setOpt s.rooms c.room users' }
    let clients' ← PyDict.eraseE s1.clients nick
    .ok ({ s1 with clients := clients' }, [])

/-- The text a recipient receives from `broadcast`: tagged with the prefix
when the prefix is non-empty, the raw message otherwise. -/
def broadcastText (pre msg : String) : String :=
  if pre = "" then msg else "[" ++ pre ++ "]: " ++ msg

end Server

/-- One Python-level step of the AwaitingName registration executed by one
of two racing handlers: `check h` evaluates `nick in self.clients.keys()`
(line 151), `write h` performs `self.clients[nick] = {...}` (line 155).
The two statements are separate bytecode units with no lock around them, so
the thread scheduler may interleave them. -/
inductive MicroStep where
  | check0
  | write0
  | check1
  | write1
deriving Repr, DecidableEq

/-- Interleaved execution state of two handlers racing to register the same
nickname: the shared clients dictionary, each handler's recorded check
result, and whether each handler has performed its registration (after
which it proceeds to the Active state believing the name is its own). -/
structure RaceState where
  clients : List (String × Client)
  saw0 : Option Bool
  saw1 : Option Bool
  reg0 : Bool
  reg1 : Bool
deriving Repr, DecidableEq

/-- Start state of the race: no check performed, no registration yet. -/
def RaceState.init (clients : List (String × Client)) : RaceState :=
  ⟨clients, none, none, false, false⟩

/-- Execute one micro step.  A `write` only registers when that handler's
check saw the name available, mirroring the `else` branch of line 151. -/
def raceStep (nick : String) (sock0 sock1 : Nat) (st : RaceState) :
    MicroStep → RaceState
  | .check0 => { st with saw0 := some (!(PyDict.contains st.clients nick)) }
  | .write0 =>
    match st.saw0 with
    | some true =>
      { st with clients := PyDict.set st.clients nick ⟨sock0, none⟩, reg0 := true }
    | _ => st
  | .check1 => { st with saw1 := some (!(PyDict.contains st.clients nick)) }
  | .write1 =>
    match st.saw1 with
    | some true =>
      { st with clients := PyDict.set st.clients nick ⟨sock1, none⟩, reg1 := true }
    | _ => st

/-- Execute a schedule of micro steps. -/
def raceRun (nick : String) (sock0 sock1 : Nat) (st : RaceState) :
    List MicroStep → RaceState
  | [] => st
  | m :: ms => raceRun nick sock0 sock1 (raceStep nick sock0 sock1 st m) ms

/-- `Interleaving xs ys l`: schedule `l` merges the instruction sequences
`xs` and `ys`, keeping each sequence's own order (what a thread scheduler
may produce from two threads). -/
inductive Interleaving {β : Type} : List β → List β → List β → Prop where
  | nil : Interleaving [] [] []
  | left {x : β} {xs ys l : List β} :
      Interleaving xs ys l → Interleaving (x :: xs) ys (x :: l)
  | right {y : β} {xs ys l : List β} :
      Interleaving xs ys l → Interleaving xs (y :: ys) (y :: l)

/-- The two schedules in which each handler's check and write run back to
back, i.e. as one atomic unit. -/
def serializedSchedules : List (List MicroStep) :=
  [[MicroStep.check0, MicroStep.write0, MicroStep.check1, MicroStep.write1],
   [MicroStep.check1, MicroStep.write1, MicroStep.check0, MicroStep.write0]]

namespace PyDict

variable {α : Type}

theorem lookup_set (l : List (String × α)) (k k' : String) (v : α) :
    lookup (set l k v) k' = if k' = k then some v else lookup l k' := by
  induction l with
  | nil =>
    by_cases h : k' = k
    · simp [set, lookup, h]
    · have h2 : ¬k = k' := fun hc => h hc.symm
      simp [set, lookup, h, h2]
  | cons p l ih =>
    by_cases hp : p.1 = k
    · by_cases h : k' = k
      · simp [set, lookup, hp, h]
      · have h2 : ¬k = k' := fun hc => h hc.symm
        have hpk : ¬p.1 = k' := fun hc => h2 (hp.symm.trans hc)
        simp [set, lookup, hp, h, h2, hpk]
    · by_cases hq : p.1 = k'
      · have h : ¬k' = k := fun hc => hp (hq.trans hc)
        simp [set, lookup, hp, hq, h]
      · simp [set, lookup, hp, hq, ih]

theorem lookup_set_self (l : List (String × α)) (k : String) (v : α) :
    lookup (set l k v) k = some v := by
  simp [lookup_set]

theorem contains_set (l : List (String × α)) (k k' : String) (v : α) :
    contains (set l k v) k' = (decide (k' = k) || contains l k') := by
  by_cases h : k' = k <;> simp [contains, lookup_set, h]

theorem contains_set_self (l : List (String × α)) (k : String) (v : α) :
    contains (set l k v) k = true := by
  simp [contains, lookup_set]

theorem lookup_eraseKey (l : List (String × α)) (k k' : String) :
    lookup (eraseKey l k) k' = if k' = k then none else lookup l k' := by
  induction l with
  | nil => by_cases h : k' = k <;> simp [eraseKey, lookup, h]
  | cons p l ih =>
    by_cases hp : p.1 = k
    · by_cases h : k' = k
      · simp [eraseKey, List.filter_cons, hp, h] at ih ⊢
        simpa [h] using ih
      · have hpk : ¬p.1 = k' := fun hc => h (hp.symm.trans hc).symm
        simp [eraseKey, List.filter_cons, hp] at ih ⊢
        simp [ih, h, lookup, hpk]
    · by_cases hq : p.1 = k'
      · have h : ¬k' = k := fun hc => hp (hq.trans hc)
        simp [eraseKey, List.filter_cons, hp, lookup, hq, h]
      · simp [eraseKey, List.filter_cons, hp, lookup, hq] at ih ⊢
        exact ih

theorem contains_eraseKey (l : List (String × α)) (k k' : String) :
    contains (eraseKey l k) k' = (decide (¬k' = k) && contains l k') := by
  by_cases h : k' = k <;> simp [contains, lookup_eraseKey, h]

theorem mem_eraseKey (l : List (String × α)) (k : String) (q : String × α) :
    q ∈ eraseKey l k ↔ q ∈ l ∧ ¬q.1 = k := by
  simp [eraseKey, List.mem_filter]

theorem mem_of_lookup (l : List (String × α)) (k : String) (v : α)
    (h : lookup l k = some v) : (k, v) ∈ l := by
  induction l with
  | nil => simp [lookup] at h
  | cons p l ih =>
    by_cases hp : p.1 = k
    · simp [lookup, hp] at h
      have hkv : (k, v) = p := by rw [← hp, ← h]
      rw [hkv]
      exact List.mem_cons_self p l
    · simp [lookup, hp] at h
      exact List.mem_cons_of_mem _ (ih h)

theorem mem_set (l : List (String × α)) (k : String) (v : α) (q : String × α)
    (h : q ∈ set l k v) : q = (k, v) ∨ q ∈ l := by
  induction l with
  | nil => simpa [set] using h
  | cons p l ih =>
    by_cases hp : p.1 = k
    · simp [set, hp] at h
      rcases h with h | h
      · exact Or.inl h
      · exact Or.inr (List.mem_cons_of_mem _ h)
    · simp [set, hp] at h
      rcases h with h | h
      · exact Or.inr (by simp [h])
      · rcases ih h with h | h
        · exact Or.inl h
        · exact Or.inr (List.mem_cons_of_mem _ h)

theorem mem_set_strong (l : List (String × α)) (k : String) (v : α) (q : String × α)
    (hnd : (l.map Prod.fst).Nodup) (h : q ∈ set l k v) :
    q = (k, v) ∨ (q ∈ l ∧ ¬q.1 = k) := by
  induction l with
  | nil =>
    simp [set] at h
    exact Or.inl h
  | cons p l ih =>
    simp only [List.map_cons, List.nodup_cons] at hnd
    by_cases hp : p.1 = k
    · simp [set, hp] at h
      rcases h with h | h
      · exact Or.inl h
      · refine Or.inr ⟨List.mem_cons_of_mem _ h, fun hq => ?_⟩
        have hm : q.1 ∈ l.map Prod.fst := List.mem_map_of_mem Prod.fst h
        rw [hq, ← hp] at hm
        exact hnd.1 hm
    · simp [set, hp] at h
      rcases h with h | h
      · refine Or.inr ⟨by simp [h], ?_⟩
        rw [h]
        exact hp
      · rcases ih hnd.2 h with h | h
        · exact Or.inl h
        · exact Or.inr ⟨List.mem_cons_of_mem _ h.1, h.2⟩

theorem contains_iff_lookup (l : List (String × α)) (k : String) :
    contains l k = true ↔ ∃ v, lookup l k = some v := by
  simp [contains, Option.isSome_iff_exists]

theorem eraseE_of_contains (l : List (String × α)) (k : String)
    (h : contains l k = true) : eraseE l k = .ok (eraseKey l k) := by
  simp [eraseE, h]

theorem eraseKey_set (l : List (String × α)) (k : String) (v : α) :
    eraseKey (set l k v) k = eraseKey l k := by
  induction l with
  | nil => simp [set, eraseKey, List.filter_cons]
  | cons p l ih =>
    by_cases hp : p.1 = k
    · have hb : (p.1 == k) = true := beq_iff_eq.mpr hp
      simp [set, hp, eraseKey, List.filter_cons, hb]
    · have hb : (p.1 == k) = false := beq_eq_false_iff_ne.mpr hp
      simp only [set, if_neg hp, eraseKey, List.filter_cons, hb] at ih ⊢
      simp [ih]

end PyDict

namespace Server

theorem sendLoop_eq (closed : List Nat) (text : String) (rs : List Nat) :
    sendLoop closed text rs =
      ((rs.takeWhile fun r => !(closed.contains r)).map (fun r => (r, text)),
       ((rs.dropWhile fun r => !(closed.contains r)).head?).map PyErr.sendError) := by
  induction rs with
  | nil => simp [sendLoop]
  | cons r rs ih =>
    by_cases h : r ∈ closed
    · simp [sendLoop, h, List.takeWhile_cons, List.dropWhile_cons]
    · simp [sendLoop, h, List.takeWhile_cons, List.dropWhile_cons, ih]

theorem sendLoop_nil_closed (text : String) (rs : List Nat) :
    sendLoop [] text rs = (rs.map (fun r => (r, text)), none) := by
  induction rs with
  | nil => simp [sendLoop]
  | cons r rs ih => simp [sendLoop, ih]

theorem broadcast_nil_closed (msg : String) (rs : List Nat) (pre : String) :
    broadcast [] msg rs pre = (rs.map (fun r => (r, broadcastText pre msg)), none) := by
  by_cases h : pre = "" <;> simp [broadcast, broadcastText, sendLoop_nil_closed, h]

theorem room_announce_ok (s : ServerState) (msg : String) (r : String) (pre : String)
    (users : Users) (hu : PyDict.lookup s.rooms r = some users) :
    room_announce s msg (some r) pre =
      .ok ((PyDict.values users).map (fun x => (x, broadcastText pre msg))) := by
  simp [room_announce, hu, broadcast_nil_closed]

theorem join_room_ok (s : ServerState) (nick : String) (c : Client) (r : String)
    (users : Users) (sock : Nat)
    (hc : PyDict.lookup s.clients nick = some c)
    (hu : PyDict.lookup s.rooms r = some users) :
    join_room s nick (some r) sock =
      .ok (⟨PyDict.set s.clients nick { c with room := some r },
            PyDict.set s.rooms r (PyDict.set users nick c.sock)⟩,
           (sock, "\\join=success") ::
             (PyDict.values (PyDict.set users nick c.sock)).map
               (fun x => (x, "\\online=" ++ String.intercalate "|"
                               (PyDict.keys (PyDict.set users nick c.sock))))) := by
  have hcont : PyDict.contains s.rooms r = true := by
    simp [PyDict.contains, hu]
  simp [join_room, hcont, PyDict.get, hc, hu, bind, Except.bind, room_announce,
        get_online_users, PyDict.lookup_set_self, broadcast_nil_closed, broadcastText]

theorem leave_room_no_room (s : ServerState) (nick : String) (c : Client) (sock : Nat)
    (hc : PyDict.lookup s.clients nick = some c) (hcr : c.room = none) :
    leave_room s nick sock = .ok (s, [(sock, "\\leave=no_room")]) := by
  simp [leave_room, PyDict.get, hc, hcr, bind, Except.bind]

theorem leave_room_in_room (s : ServerState) (nick : String) (c : Client) (R : String)
    (users : Users) (sock : Nat)
    (hc : PyDict.lookup s.clients nick = some c)
    (hcr : c.room = some R)
    (hu : PyDict.lookup s.rooms R = some users)
    (hm : PyDict.contains users nick = true) :
    leave_room s nick sock =
      .ok (⟨PyDict.set s.clients nick { c with room := none },
            if (PyDict.eraseKey users nick).length = 0
              then PyDict.eraseKey s.rooms R
              else PyDict.set s.rooms R (PyDict.eraseKey users nick)⟩,
           (sock, "\\leave=success") ::
             if (PyDict.eraseKey users nick).length = 0 then []
             else (PyDict.values (PyDict.eraseKey users nick)).map
               (fun x => (x, "\\online=" ++ String.intercalate "|"
                               (PyDict.keys (PyDict.eraseKey users nick))))) := by
  by_cases hlen : (PyDict.eraseKey users nick).length = 0
  · simp [leave_room, PyDict.get, hc, hcr, hu, bind, Except.bind,
          PyDict.eraseE_of_contains, hm, hlen, PyDict.eraseE,
          PyDict.contains_set_self, PyDict.eraseKey_set]
  · simp [leave_room, PyDict.get, hc, hcr, hu, bind, Except.bind,
          PyDict.eraseE_of_contains, hm, hlen, room_announce, get_online_users,
          PyDict.lookup_set_self, broadcast_nil_closed, broadcastText]

theorem quitCommand_eq (s : ServerState) (nick : String) (sock : Nat) (s1 : ServerState)
    (ds : List Send) (h : leave_room s nick sock = .ok (s1, ds))
    (hcont : PyDict.contains s1.clients nick = true) :
    quitCommand s nick sock =
      .ok ({ s1 with clients := PyDict.eraseKey s1.clients nick },
           ds ++ [(sock, "\\quit=success")]) := by
  simp [quitCommand, h, bind, Except.bind, PyDict.eraseE_of_contains, hcont]

end Server

theorem roomValid_set (rooms : List (String × Users)) (r : String) (v : Users)
    (ro : Option String) (h : roomValid rooms ro = true) :
    roomValid (PyDict.set rooms r v) ro = true := by
  cases ro with
  | none => simp [roomValid]
  | some r2 =>
    simp only [roomValid] at h ⊢
    rw [PyDict.contains_set]
    simp [h]

theorem create_preserves (s : ServerState) (hC : Consistent s) (arg : Option String)
    (sock : Nat) (s' : ServerState) (ds : List Send)
    (h : Server.create_room s arg sock = .ok (s', ds)) : Consistent s' := by
  obtain ⟨h1, h2, h3⟩ := hC
  cases arg with
  | none =>
    simp [Server.create_room] at h
    rw [← h.1]
    exact ⟨h1, h2, h3⟩
  | some r =>
    by_cases hr : PyDict.contains s.rooms r
    · simp [Server.create_room, hr] at h
      rw [← h.1]
      exact ⟨h1, h2, h3⟩
    · simp [Server.create_room, hr] at h
      rw [← h.1]
      refine ⟨?_, ?_, ?_⟩
      · intro p hp
        exact roomValid_set _ r [] _ (h1 p hp)
      · intro q hq u hu
        rcases PyDict.mem_set s.rooms r [] q hq with hq2 | hq2
        · rw [hq2] at hu
          simp at hu
        · exact h2 q hq2 u hu
      · intro p hp q hq hpr
        rcases PyDict.mem_set s.rooms r [] q hq with hq2 | hq2
        · exfalso
          have hv := h1 p hp
          rw [hq2] at hpr
          simp only [hpr, roomValid] at hv
          exact hr hv
        · exact h3 p hp q hq2 hpr

theorem join_preserves (s : ServerState) (hWF : WF s) (hC : Consistent s)
    (nick : String) (c : Client) (r : String) (users : Users)
    (hc : PyDict.lookup s.clients nick = some c)
    (hu : PyDict.lookup s.rooms r = some users)
    (hroom : c.room = none ∨ c.room = some r) :
    Consistent ⟨PyDict.set s.clients nick { c with room := some r },
                PyDict.set s.rooms r (PyDict.set users nick c.sock)⟩ := by
  obtain ⟨h1, h2, h3⟩ := hC
  obtain ⟨hndc, hndr, hndu⟩ := hWF
  have hru : (r, users) ∈ s.rooms := PyDict.mem_of_lookup _ _ _ hu
  refine ⟨?_, ?_, ?_⟩
  · intro p hp
    rcases PyDict.mem_set _ _ _ p hp with hp2 | hp2
    · rw [hp2]
      simp only [roomValid]
      exact PyDict.contains_set_self _ _ _
    · exact roomValid_set _ _ _ _ (h1 p hp2)
  · intro q hq u hu2
    rcases PyDict.mem_set _ _ _ q hq with hq2 | hq2
    · subst hq2
      simp only at hu2 ⊢
      by_cases hun : u.1 = nick
      · rw [hun, PyDict.lookup_set_self]
        rfl
      · have hu3 : u ∈ users := by
          rcases PyDict.mem_set _ _ _ u hu2 with h | h
          · exact absurd (by rw [h]) hun
          · exact h
        rw [PyDict.lookup_set, if_neg hun]
        exact h2 (r, users) hru u hu3
    · by_cases hun : u.1 = nick
      · have hc2 := h2 q hq2 u hu2
        rw [hun, hc] at hc2
        have hcq : c.room = some q.1 := by simpa using hc2
        rcases hroom with hrn | hrr
        · rw [hrn] at hcq
          cases hcq
        · rw [hun, PyDict.lookup_set_self]
          have hrq : some r = some q.1 := by rw [← hrr, hcq]
          simp [hrq]
      · rw [PyDict.lookup_set, if_neg hun]
        exact h2 q hq2 u hu2
  · intro p hp q hq hpr
    rcases PyDict.mem_set_strong _ _ _ q hndr hq with hq2 | ⟨hq2, hq3⟩
    · subst hq2
      simp only
      rcases PyDict.mem_set _ _ _ p hp with hp2 | hp2
      · rw [hp2]
        exact PyDict.contains_set_self _ _ _
      · simp only at hpr
        have hm := h3 p hp2 (r, users) hru hpr
        rw [PyDict.contains_set]
        simp [hm]
    · rcases PyDict.mem_set _ _ _ p hp with hp2 | hp2
      · exfalso
        rw [hp2] at hpr
        simp only at hpr
        exact hq3 (by injection hpr with h; exact h.symm)
      · exact h3 p hp2 q hq2 hpr

theorem eraseKey_nil_key (users : Users) (nick : String)
    (hA : PyDict.eraseKey users nick = []) (k : String)
    (hk : PyDict.contains users k = true) : k = nick := by
  obtain ⟨v, hv⟩ := (PyDict.contains_iff_lookup users k).mp hk
  have hmem := PyDict.mem_of_lookup _ _ _ hv
  have := List.filter_eq_nil_iff.mp hA _ hmem
  simpa using this

theorem leave_preserves (s : ServerState) (hWF : WF s) (hC : Consistent s)
    (nick : String) (c : Client) (R : String) (users : Users)
    (hc : PyDict.lookup s.clients nick = some c)
    (hcr : c.room = some R)
    (hu : PyDict.lookup s.rooms R = some users)
    (hm : PyDict.contains users nick = true) :
    Consistent ⟨PyDict.set s.clients nick { c with room := none },
                if (PyDict.eraseKey users nick).length = 0
                  then PyDict.eraseKey s.rooms R
                  else PyDict.set s.rooms R (PyDict.eraseKey users nick)⟩ := by
  obtain ⟨h1, h2, h3⟩ := hC
  obtain ⟨hndc, hndr, hndu⟩ := hWF
  have hru : (R, users) ∈ s.rooms := PyDict.mem_of_lookup _ _ _ hu
  by_cases hlen : (PyDict.eraseKey users nick).length = 0
  · have hA : PyDict.eraseKey users nick = [] := List.length_eq_zero.mp hlen
    rw [if_pos hlen]
    refine ⟨?_, ?_, ?_⟩
    · intro p hp
      rcases PyDict.mem_set_strong _ _ _ p hndc hp with hp2 | ⟨hp2, hp3⟩
      · rw [hp2]
        simp [roomValid]
      · cases hrp : p.2.room with
        | none => simp [roomValid]
        | some r2 =>
          have hr2 : ¬r2 = R := by
            intro hr2R
            rw [hr2R] at hrp
            have hcm := h3 p hp2 (R, users) hru hrp
            exact hp3 (eraseKey_nil_key users nick hA p.1 hcm)
          simp only [roomValid]
          rw [PyDict.contains_eraseKey]
          have hv := h1 p hp2
          rw [hrp] at hv
          simp only [roomValid] at hv
          simp [hr2, hv]
    · intro q hq u hu2
      obtain ⟨hq2, hq3⟩ := (PyDict.mem_eraseKey _ _ _).mp hq
      have hc2 := h2 q hq2 u hu2
      by_cases hun : u.1 = nick
      · exfalso
        rw [hun, hc] at hc2
        have : c.room = some q.1 := by simpa using hc2
        rw [hcr] at this
        exact hq3 (by injection this with h; exact h.symm)
      · rw [PyDict.lookup_set, if_neg hun]
        exact hc2
    · intro p hp q hq hpr
      obtain ⟨hq2, hq3⟩ := (PyDict.mem_eraseKey _ _ _).mp hq
      rcases PyDict.mem_set_strong _ _ _ p hndc hp with hp2 | ⟨hp2, hp3⟩
      · rw [hp2] at hpr
        cases hpr
      · exact h3 p hp2 q hq2 hpr
  · rw [if_neg hlen]
    refine ⟨?_, ?_, ?_⟩
    · intro p hp
      rcases PyDict.mem_set _ _ _ p hp with hp2 | hp2
      · rw [hp2]
        simp [roomValid]
      · exact roomValid_set _ _ _ _ (h1 p hp2)
    · intro q hq u hu2
      rcases PyDict.mem_set_strong _ _ _ q hndr hq with hq2 | ⟨hq2, hq3⟩
      · subst hq2
        simp only at hu2 ⊢
        obtain ⟨hu3, hun⟩ := (PyDict.mem_eraseKey _ _ _).mp hu2
        rw [PyDict.lookup_set, if_neg hun]
        exact h2 (R, users) hru u hu3
      · have hc2 := h2 q hq2 u hu2
        by_cases hun : u.1 = nick
        · exfalso
          rw [hun, hc] at hc2
          have : c.room = some q.1 := by simpa using hc2
          rw [hcr] at this
          exact hq3 (by injection this with h; exact h.symm)
        · rw [PyDict.lookup_set, if_neg hun]
          exact hc2
    · intro p hp q hq hpr
      rcases PyDict.mem_set_strong _ _ _ p hndc hp with hp2 | ⟨hp2, hp3⟩
      · rw [hp2] at hpr
        cases hpr
      · rcases PyDict.mem_set_strong _ _ _ q hndr hq with hq2 | ⟨hq2, hq3⟩
        · subst hq2
          simp only at hpr ⊢
          have hcm := h3 p hp2 (R, users) hru hpr
          rw [PyDict.contains_eraseKey]
          simp [hp3, hcm]
        · exact h3 p hp2 q hq2 hpr

theorem erase_client_preserves (s : ServerState) (hC : Consistent s) (nick : String)
    (c : Client) (hc : PyDict.lookup s.clients nick = some c) (hcr : c.room = none) :
    Consistent { s with clients := PyDict.eraseKey s.clients nick } := by
  obtain ⟨h1, h2, h3⟩ := hC
  refine ⟨?_, ?_, ?_⟩
  · intro p hp
    obtain ⟨hp2, -⟩ := (PyDict.mem_eraseKey _ _ _).mp hp
    exact h1 p hp2
  · intro q hq u hu2
    have hc2 := h2 q hq u hu2
    by_cases hun : u.1 = nick
    · exfalso
      rw [hun, hc] at hc2
      have hcq : c.room = some q.1 := by simpa using hc2
      rw [hcr] at hcq
      cases hcq
    · rw [PyDict.lookup_eraseKey, if_neg hun]
      exact hc2
  · intro p hp q hq hpr
    obtain ⟨hp2, -⟩ := (PyDict.mem_eraseKey _ _ _).mp hp
    exact h3 p hp2 q hq hpr

theorem disconnect_state_preserves (s : ServerState) (hWF : WF s) (hC : Consistent s)
    (nick : String) (c : Client) (R : String) (users : Users)
    (hc : PyDict.lookup s.clients nick = some c)
    (hcr : c.room = some R)
    (hu : PyDict.lookup s.rooms R = some users) :
    Consistent ⟨PyDict.eraseKey s.clients nick,
                PyDict.set s.rooms R (PyDict.eraseKey users nick)⟩ := by
  obtain ⟨h1, h2, h3⟩ := hC
  obtain ⟨hndc, hndr, hndu⟩ := hWF
  have hru : (R, users) ∈ s.rooms := PyDict.mem_of_lookup _ _ _ hu
  refine ⟨?_, ?_, ?_⟩
  · intro p hp
    obtain ⟨hp2, -⟩ := (PyDict.mem_eraseKey _ _ _).mp hp
    exact roomValid_set _ _ _ _ (h1 p hp2)
  · intro q hq u hu2
    rcases PyDict.mem_set_strong _ _ _ q hndr hq with hq2 | ⟨hq2, hq3⟩
    · subst hq2
      simp only at hu2 ⊢
      obtain ⟨hu3, hun⟩ := (PyDict.mem_eraseKey _ _ _).mp hu2
      rw [PyDict.lookup_eraseKey, if_neg hun]
      exact h2 (R, users) hru u hu3
    · have hc2 := h2 q hq2 u hu2
      by_cases hun : u.1 = nick
      · exfalso
        rw [hun, hc] at hc2
        have hcq : c.room = some q.1 := by simpa using hc2
        rw [hcr] at hcq
        exact hq3 (by injection hcq with h; exact h.symm)
      · rw [PyDict.lookup_eraseKey, if_neg hun]
        exact hc2
  · intro p hp q hq hpr
    obtain ⟨hp2, hp3⟩ := (PyDict.mem_eraseKey _ _ _).mp hp
    rcases PyDict.mem_set_strong _ _ _ q hndr hq with hq2 | ⟨hq2, hq3⟩
    · subst hq2
      simp only at hpr ⊢
      have hcm := h3 p hp2 (R, users) hru hpr
      rw [PyDict.contains_eraseKey]
      simp [hp3, hcm]
    · exact h3 p hp2 q hq2 hpr

theorem activeStep_chat_state (s : ServerState) (nick : String) (sock : Nat)
    (msg : String) (hmm : commandMatch msg = none) (s' : ServerState) (ds : List Send)
    (h : Server.activeStep s nick sock msg = .ok (.next s' ds)) : s' = s := by
  cases hlc : PyDict.lookup s.clients nick with
  | none => simp [Server.activeStep, hmm, PyDict.get, hlc, bind, Except.bind] at h
  | some c =>
    cases hcr : c.room with
    | none =>
      simp [Server.activeStep, hmm, PyDict.get, hlc, bind, Except.bind,
            Server.room_announce, hcr] at h
      exact h.1.symm
    | some R =>
      cases hru : PyDict.lookup s.rooms R with
      | none =>
        simp [Server.activeStep, hmm, PyDict.get, hlc, bind, Except.bind,
              Server.room_announce, hcr, hru] at h
      | some users =>
        simp [Server.activeStep, hmm, PyDict.get, hlc, bind, Except.bind,
              Server.room_announce, hcr, hru] at h
        exact h.1.symm

/-- C1 (amended): bidirectional room-membership consistency is preserved by
create, leave, quit, chat fall-through, and both disconnect cleanups, and by
join whenever the joining client's room reference is null or already the
target room.  (A join issued from a different room is excluded: it leaves
the client in the old room's member set — see C10.) -/
theorem directory_ops_preserve_consistency (s : ServerState)
    (hWF : WF s) (hC : Consistent s) :
    (∀ arg sock s' ds, Server.create_room s arg sock = .ok (s', ds) → Consistent s') ∧
    (∀ nick c arg sock, PyDict.lookup s.clients nick = some c →
        (c.room = none ∨ c.room = arg) →
        ∀ s' ds, Server.join_room s nick arg sock = .ok (s', ds) → Consistent s') ∧
    (∀ nick c sock, PyDict.lookup s.clients nick = some c →
        ∀ s' ds, Server.leave_room s nick sock = .ok (s', ds) → Consistent s') ∧
    (∀ nick c sock, PyDict.lookup s.clients nick = some c →
        ∀ s' ds, Server.quitCommand s nick sock = .ok (s', ds) → Consistent s') ∧
    (∀ nick sock msg, commandMatch msg = none →
        ∀ s' ds, Server.activeStep s nick sock msg = .ok (.next s' ds) → Consistent s') ∧
    (∀ nick s' ds, Server.connectionResetCleanup s nick = .ok (s', ds) → Consistent s') ∧
    (∀ nick s' ds, Server.brokenPipeCleanup s nick = .ok (s', ds) → Consistent s') := by
  refine ⟨?_, ?_, ?_, ?_, ?_, ?_, ?_⟩
  · intro arg sock s' ds h
    exact create_preserves s hC arg sock s' ds h
  · intro nick c arg sock hc hroom s' ds h
    cases arg with
    | none =>
      simp [Server.join_room] at h
      rw [← h.1]
      exact hC
    | some r =>
      by_cases hcont : PyDict.contains s.rooms r
      · obtain ⟨users, hu⟩ := (PyDict.contains_iff_lookup _ _).mp hcont
        rw [Server.join_room_ok s nick c r users sock hc hu] at h
        simp only [Except.ok.injEq, Prod.mk.injEq] at h
        rw [← h.1]
        exact join_preserves s hWF hC nick c r users hc hu hroom
      · simp [Server.join_room, hcont] at h
        rw [← h.1]
        exact hC
  · intro nick c sock hc s' ds h
    cases hcr : c.room with
    | none =>
      rw [Server.leave_room_no_room s nick c sock hc hcr] at h
      simp at h
      rw [← h.1]
      exact hC
    | some R =>
      cases hru : PyDict.lookup s.rooms R with
      | none =>
        simp [Server.leave_room, PyDict.get, hc, hcr, hru, bind, Except.bind] at h
      | some users =>
        by_cases hm : PyDict.contains users nick
        · rw [Server.leave_room_in_room s nick c R users sock hc hcr hru hm] at h
          simp only [Except.ok.injEq, Prod.mk.injEq] at h
          rw [← h.1]
          exact leave_preserves s hWF hC nick c R users hc hcr hru hm
        · simp [Server.leave_room, PyDict.get, hc, hcr, hru, bind, Except.bind,
                PyDict.eraseE, hm] at h
  · intro nick c sock hc s' ds h
    have hcont : PyDict.contains s.clients nick = true := by
      simp [PyDict.contains, hc]
    cases hcr : c.room with
    | none =>
      have hl := Server.leave_room_no_room s nick c sock hc hcr
      rw [Server.quitCommand_eq s nick sock s [(sock, "\\leave=no_room")] hl hcont] at h
      simp only [Except.ok.injEq, Prod.mk.injEq] at h
      rw [← h.1]
      exact erase_client_preserves s hC nick c hc hcr
    | some R =>
      cases hru : PyDict.lookup s.rooms R with
      | none =>
        simp [Server.quitCommand, Server.leave_room, PyDict.get, hc, hcr, hru,
              bind, Except.bind] at h
      | some users =>
        by_cases hm : PyDict.contains users nick
        · have hl := Server.leave_room_in_room s nick c R users sock hc hcr hru hm
          have hcont1 : PyDict.contains
              (PyDict.set s.clients nick { c with room := none }) nick = true :=
            PyDict.contains_set_self _ _ _
          rw [Server.quitCommand_eq s nick sock _ _ hl hcont1] at h
          simp only [Except.ok.injEq, Prod.mk.injEq] at h
          rw [← h.1]
          have hC1 := leave_preserves s hWF hC nick c R users hc hcr hru hm
          exact erase_client_preserves _ hC1 nick { c with room := none }
            (PyDict.lookup_set_self _ _ _) rfl
        · simp [Server.quitCommand, Server.leave_room, PyDict.get, hc, hcr, hru,
                bind, Except.bind, PyDict.eraseE, hm] at h
  · intro nick sock msg hmm s' ds h
    rw [activeStep_chat_state s nick sock msg hmm s' ds h]
    exact hC
  · intro nick s' ds h
    by_cases hn : nick = ""
    · simp [Server.connectionResetCleanup, hn] at h
      rw [← h.1]
      exact hC
    · cases hlc : PyDict.lookup s.clients nick with
      | none =>
        simp [Server.connectionResetCleanup, hn, PyDict.get, hlc, bind, Except.bind] at h
      | some c =>
        cases hcr : c.room with
        | none =>
          simp [Server.connectionResetCleanup, hn, PyDict.get, hlc, bind, Except.bind,
                Server.room_announce, hcr, PyDict.getOpt] at h
        | some R =>
          cases hru : PyDict.lookup s.rooms R with
          | none =>
            simp [Server.connectionResetCleanup, hn, PyDict.get, hlc, bind, Except.bind,
                  Server.room_announce, hcr, hru] at h
          | some users =>
            by_cases hm : PyDict.contains users nick
            · have hcc : PyDict.contains s.clients nick = true := by
                simp [PyDict.contains, hlc]
              simp [Server.connectionResetCleanup, hn, PyDict.get, hlc, bind, Except.bind,
                    Server.room_announce, hcr, hru, PyDict.getOpt, PyDict.setOpt,
                    PyDict.eraseE, hm, hcc] at h
              rw [← h.1]
              exact disconnect_state_preserves s hWF hC nick c R users hlc hcr hru
            · simp [Server.connectionResetCleanup, hn, PyDict.get, hlc, bind, Except.bind,
                    Server.room_announce, hcr, hru, PyDict.getOpt, PyDict.eraseE, hm] at h
  · intro nick s' ds h
    by_cases hn : nick = ""
    · simp [Server.brokenPipeCleanup, hn] at h
      rw [← h.1]
      exact hC
    · cases hlc : PyDict.lookup s.clients nick with
      | none =>
        simp [Server.brokenPipeCleanup, hn, PyDict.get, hlc, bind, Except.bind] at h
      | some c =>
        cases hcr : c.room with
        | none =>
          simp [Server.brokenPipeCleanup, hn, PyDict.get, hlc, bind, Except.bind,
                hcr, PyDict.getOpt] at h
        | some R =>
          cases hru : PyDict.lookup s.rooms R with
          | none =>
            simp [Server.brokenPipeCleanup, hn, PyDict.get, hlc, bind, Except.bind,
                  hcr, hru, PyDict.getOpt] at h
          | some users =>
            by_cases hm : PyDict.contains users nick
            · have hcc : PyDict.contains s.clients nick = true := by
                simp [PyDict.contains, hlc]
              simp [Server.brokenPipeCleanup, hn, PyDict.get, hlc, bind, Except.bind,
                    hcr, hru, PyDict.getOpt, PyDict.setOpt,
                    PyDict.eraseE, hm, hcc] at h
              rw [← h.1]
              exact disconnect_state_preserves s hWF hC nick c R users hlc hcr hru
            · simp [Server.brokenPipeCleanup, hn, PyDict.get, hlc, bind, Except.bind,
                    hcr, hru, PyDict.getOpt, PyDict.eraseE, hm] at h

/-- C1 (counterexample): from a consistent, well-formed state in which alice
is in room A and room B also exists, joining room B sets alice's room
reference to B and adds her to B's members but leaves her in A's member
set, so bidirectional room-membership consistency is violated. -/
theorem join_from_other_room_breaks_consistency :
    Consistent ⟨[("alice", ⟨0, some "A"⟩)], [("A", [("alice", 0)]), ("B", [])]⟩ ∧
    WF ⟨[("alice", ⟨0, some "A"⟩)], [("A", [("alice", 0)]), ("B", [])]⟩ ∧
    Server.join_room ⟨[("alice", ⟨0, some "A"⟩)], [("A", [("alice", 0)]), ("B", [])]⟩
        "alice" (some "B") 0 =
      .ok (⟨[("alice", ⟨0, some "B"⟩)], [("A", [("alice", 0)]), ("B", [("alice", 0)])]⟩,
           [(0, "\\join=success"), (0, "\\online=alice")]) ∧
    ¬ Consistent ⟨[("alice", ⟨0, some "B"⟩)],
                  [("A", [("alice", 0)]), ("B", [("alice", 0)])]⟩ := by
  refine ⟨by decide, by decide, rfl, by decide⟩

/-- Witness for C1 (amended): the join conjunct applied to a concrete
roomless client joining room B yields a consistent state. -/
theorem directory_ops_preserve_consistency_witness :
    Consistent ⟨[("alice", ⟨0, some "B"⟩)], [("B", [("alice", 0)])]⟩ :=
  (directory_ops_preserve_consistency ⟨[("alice", ⟨0, none⟩)], [("B", [])]⟩
      (by decide) (by decide)).2.1
    "alice" ⟨0, none⟩ (some "B") 0 (by decide) (Or.inl rfl)
    ⟨[("alice", ⟨0, some "B"⟩)], [("B", [("alice", 0)])]⟩
    [(0, "\\join=success"), (0, "\\online=alice")] rfl

/-- C2 (counterexample): a broadcast to recipients [1, 2] where socket 1 is
closed delivers nothing, does not reach the remaining recipient 2, and the
send exception escapes the loop. -/
theorem broadcast_send_failure_aborts :
    Server.broadcast [1] "hi" [1, 2] "" = ([], some (PyErr.sendError 1)) ∧
    (Server.broadcast [1] "hi" [1, 2] "").2 ≠ none ∧
    ((2 : Nat), "hi") ∉ (Server.broadcast [1] "hi" [1, 2] "").1 := by
  refine ⟨by decide, by decide, by decide⟩

/-- C2 (amended): `broadcast` has no exception handling: it delivers to the
recipients strictly before the first closed one, then the send failure on
the first closed recipient propagates to the caller and every recipient
after it receives nothing. -/
theorem broadcast_delivers_until_first_failure (closed : List Nat) (msg : String)
    (recipients : List Nat) (pre : String) :
    Server.broadcast closed msg recipients pre =
      ((recipients.takeWhile fun r => !(closed.contains r)).map
         (fun r => (r, Server.broadcastText pre msg)),
       ((recipients.dropWhile fun r => !(closed.contains r)).head?).map
         PyErr.sendError) := by
  by_cases h : pre = "" <;>
    simp [Server.broadcast, Server.broadcastText, Server.sendLoop_eq, h]

/-- C3: the ConnectionResetError cleanup of a registered client that has no
current room evaluates `self.rooms[None]`, raising an uncaught KeyError
instead of performing the quit-style cleanup. -/
theorem connection_reset_roomless_raises_keyerror :
    Server.connectionResetCleanup ⟨[("alice", ⟨0, none⟩)], []⟩ "alice" =
      .error PyErr.keyError := by
  rfl

/-- C4 (counterexample): a client alone in room A issuing `\quit` receives
the reply of the embedded leave (`\leave=success`) before `\quit=success`,
so `\quit=success` is not the only reply emitted by quit. -/
theorem quit_in_room_also_replies_leave_success :
    Server.activeStep ⟨[("alice", ⟨0, some "A"⟩)], [("A", [("alice", 0)])]⟩
        "alice" 0 "\\quit" =
      .ok (.halt ⟨[], []⟩ [(0, "\\leave=success"), (0, "\\quit=success")]) ∧
    ((0 : Nat), "\\leave=success") ∈
      [((0 : Nat), "\\leave=success"), (0, "\\quit=success")] ∧
    [((0 : Nat), "\\leave=success"), (0, "\\quit=success")] ≠
      [((0 : Nat), "\\quit=success")] := by
  refine ⟨rfl, by decide, by decide⟩

/-- C4 (amended): processing `\quit` for a client currently in a room runs
the full leave (whose first reply to the client is `\leave=success`,
followed by its online-list broadcast), then removes the client from the
registry and finally replies `\quit=success`. -/
theorem quit_runs_leave_with_reply_then_quit_success (s : ServerState) (nick : String)
    (c : Client) (R : String) (users : Users) (sock : Nat)
    (hc : PyDict.lookup s.clients nick = some c)
    (hcr : c.room = some R)
    (hu : PyDict.lookup s.rooms R = some users)
    (hm : PyDict.contains users nick = true) :
    ∃ s1 ds1, Server.leave_room s nick sock = .ok (s1, ds1) ∧
      ds1.head? = some (sock, "\\leave=success") ∧
      Server.activeStep s nick sock "\\quit" =
        .ok (.halt { s1 with clients := PyDict.eraseKey s1.clients nick }
               (ds1 ++ [(sock, "\\quit=success")])) ∧
      PyDict.lookup (PyDict.eraseKey s1.clients nick) nick = none := by
  have hl := Server.leave_room_in_room s nick c R users sock hc hcr hu hm
  refine ⟨_, _, hl, rfl, ?_, ?_⟩
  · have hcm : commandMatch "\\quit" = some ("quit", none) := by decide
    have hq := Server.quitCommand_eq s nick sock _ _ hl (PyDict.contains_set_self _ _ _)
    simp [Server.activeStep, hcm, hq, bind, Except.bind]
  · rw [PyDict.lookup_eraseKey]
    simp

/-- C5 (counterexample): `create` with the empty-string room name succeeds
and mutates the rooms registry, although the claim requires failure and an
unchanged registry for an empty name. -/
theorem create_room_accepts_empty_name :
    Server.create_room ⟨[], []⟩ (some "") 0 =
      .ok (⟨[], [("", [])]⟩, [(0, "\\create=success")]) ∧
    ([("", [])] : List (String × Users)) ≠ [] := by
  refine ⟨rfl, by decide⟩

/-- C5 (amended): `create` succeeds exactly when the brace argument is
present (not Python `None`) and the name — empty string included — is not
already a key of the rooms registry; a missing argument or a used name
yields `\create=failure` with the registry unchanged. -/
theorem create_room_success_iff_unused_present_name (s : ServerState) (sock : Nat) :
    (∀ r, PyDict.contains s.rooms r = false →
        Server.create_room s (some r) sock =
          .ok ({ s with rooms := PyDict.set s.rooms r [] },
               [(sock, "\\create=success")])) ∧
    (∀ r, PyDict.contains s.rooms r = true →
        Server.create_room s (some r) sock = .ok (s, [(sock, "\\create=failure")])) ∧
    Server.create_room s none sock = .ok (s, [(sock, "\\create=failure")]) := by
  refine ⟨?_, ?_, rfl⟩ <;> intro r hr <;> simp [Server.create_room, hr]

/-- Witness for C5 (amended): creating "lobby" on an empty registry
succeeds. -/
theorem create_room_success_iff_unused_present_name_witness :
    Server.create_room ⟨[], []⟩ (some "lobby") 0 =
      .ok (⟨[], [("lobby", [])]⟩, [(0, "\\create=success")]) :=
  (create_room_success_iff_unused_present_name ⟨[], []⟩ 0).1 "lobby" (by decide)

/-- C6: a client currently in a room issuing leave twice in a row gets
`\leave=success` first (with the room reference cleared) and
`\leave=no_room` second, with no state change on the second call. -/
theorem leave_twice_success_then_no_room (s : ServerState) (nick : String) (c : Client)
    (R : String) (users : Users) (sock : Nat)
    (hc : PyDict.lookup s.clients nick = some c)
    (hcr : c.room = some R)
    (hu : PyDict.lookup s.rooms R = some users)
    (hm : PyDict.contains users nick = true) :
    ∃ s1 ds1, Server.leave_room s nick sock = .ok (s1, ds1) ∧
      ds1.head? = some (sock, "\\leave=success") ∧
      PyDict.lookup s1.clients nick = some ⟨c.sock, none⟩ ∧
      Server.leave_room s1 nick sock = .ok (s1, [(sock, "\\leave=no_room")]) := by
  have hl := Server.leave_room_in_room s nick c R users sock hc hcr hu hm
  refine ⟨_, _, hl, rfl, ?_, ?_⟩
  · exact PyDict.lookup_set_self _ _ _
  · exact Server.leave_room_no_room _ nick ⟨c.sock, none⟩ sock
      (PyDict.lookup_set_self _ _ _) rfl

/-- Witness for C6 at a concrete state: alice alone in room A. -/
theorem leave_twice_success_then_no_room_witness :
    ∃ s1 ds1,
      Server.leave_room ⟨[("alice", ⟨0, some "A"⟩)], [("A", [("alice", 0)])]⟩
          "alice" 0 = .ok (s1, ds1) ∧
      ds1.head? = some (0, "\\leave=success") ∧
      PyDict.lookup s1.clients "alice" = some ⟨0, none⟩ ∧
      Server.leave_room s1 "alice" 0 = .ok (s1, [(0, "\\leave=no_room")]) :=
  leave_twice_success_then_no_room _ "alice" ⟨0, some "A"⟩ "A" [("alice", 0)] 0
    (by decide) rfl (by decide) (by decide)

/-- C7: joining a room name that is not a key of the rooms registry (or a
`\join` with no argument) replies `\join=failure` and returns the state
unchanged. -/
theorem join_unknown_room_failure_state_unchanged (s : ServerState) (nick : String)
    (arg : Option String) (sock : Nat)
    (h : ∀ r, arg = some r → PyDict.contains s.rooms r = false) :
    Server.join_room s nick arg sock = .ok (s, [(sock, "\\join=failure")]) := by
  cases arg with
  | none => rfl
  | some r => simp [Server.join_room, h r rfl]

/-- Witness for C7: joining the never-created room "nope". -/
theorem join_unknown_room_failure_state_unchanged_witness :
    Server.join_room ⟨[("alice", ⟨0, none⟩)], []⟩ "alice" (some "nope") 0 =
      .ok (⟨[("alice", ⟨0, none⟩)], []⟩, [(0, "\\join=failure")]) :=
  join_unknown_room_failure_state_unchanged _ _ _ _ (fun r hr => by cases hr; decide)

/-- C8 (counterexample): the frame `\insert` (matching the regex with a
missing argument group) takes neither branch of the AwaitingName dispatch:
the handler sends no reply at all, rather than `\insert=not_valid_nickname`. -/
theorem bare_insert_gets_no_reply :
    Server.nameStep ⟨[], []⟩ 0 "\\insert" = .retry ⟨[], []⟩ [] ∧
    ([] : List Send) ≠ [((0 : Nat), "\\insert=not_valid_nickname")] := by
  refine ⟨by decide, by decide⟩

/-- C8 (amended): in AwaitingName, a frame that does not match the
quit/insert regex, or an `\insert{name}` whose name is taken, is answered
with `\insert=not_valid_nickname` and the handler stays in AwaitingName;
the one exception is a matching `\insert` with no brace argument, which
elicits no reply at all while also remaining in AwaitingName. -/
theorem awaiting_name_invalid_frames (s : ServerState) (sock : Nat) (msg : String) :
    (insertMatch msg = none →
        Server.nameStep s sock msg = .retry s [(sock, "\\insert=not_valid_nickname")]) ∧
    (∀ n, insertMatch msg = some ("insert", some n) →
        PyDict.contains s.clients n = true →
        Server.nameStep s sock msg = .retry s [(sock, "\\insert=not_valid_nickname")]) ∧
    (insertMatch msg = some ("insert", none) →
        Server.nameStep s sock msg = .retry s []) := by
  refine ⟨?_, ?_, ?_⟩
  · intro h
    simp [Server.nameStep, h]
  · intro n h hn
    simp [Server.nameStep, h, hn]
  · intro h
    simp [Server.nameStep, h]

/-- Witness for C8 (amended): `\insert{bob}` when bob is taken is answered
with `\insert=not_valid_nickname`. -/
theorem awaiting_name_invalid_frames_witness :
    Server.nameStep ⟨[("bob", ⟨1, none⟩)], []⟩ 0 "\x5cinsert\x7bbob\x7d" =
      .retry ⟨[("bob", ⟨1, none⟩)], []⟩ [(0, "\\insert=not_valid_nickname")] :=
  (awaiting_name_invalid_frames _ 0 _).2.1 "bob" (by decide) (by decide)

/-- C9 (counterexample): the schedule check-check-write-write is a legal
interleaving of two racing inserts of the same nickname, and under it both
handlers pass the availability check and both register. -/
theorem concurrent_inserts_both_register :
    Interleaving [MicroStep.check0, MicroStep.write0]
      [MicroStep.check1, MicroStep.write1]
      [MicroStep.check0, MicroStep.check1, MicroStep.write0, MicroStep.write1] ∧
    (raceRun "alice" 0 1 (RaceState.init [])
        [MicroStep.check0, MicroStep.check1, MicroStep.write0,
         MicroStep.write1]).reg0 = true ∧
    (raceRun "alice" 0 1 (RaceState.init [])
        [MicroStep.check0, MicroStep.check1, MicroStep.write0,
         MicroStep.write1]).reg1 = true := by
  refine ⟨.left (.right (.left (.right .nil))), by decide, by decide⟩

/-- C9 (amended): at most one of two racing inserts of the same nickname
registers only under the schedules in which each handler's availability
check and registration run back to back as one atomic unit; the code itself
provides no such atomicity. -/
theorem serialized_inserts_at_most_one_registers (clients : List (String × Client))
    (nick : String) (sock0 sock1 : Nat) (sched : List MicroStep)
    (h : sched ∈ serializedSchedules) :
    ¬((raceRun nick sock0 sock1 (RaceState.init clients) sched).reg0 = true ∧
      (raceRun nick sock0 sock1 (RaceState.init clients) sched).reg1 = true) := by
  have hs : sched = [MicroStep.check0, MicroStep.write0, MicroStep.check1,
                     MicroStep.write1] ∨
            sched = [MicroStep.check1, MicroStep.write1, MicroStep.check0,
                     MicroStep.write0] := by
    simpa [serializedSchedules] using h
  by_cases hcont : PyDict.contains clients nick
  · rcases hs with rfl | rfl <;>
      simp [raceRun, raceStep, RaceState.init, hcont]
  · rcases hs with rfl | rfl <;>
      simp [raceRun, raceStep, RaceState.init, hcont, PyDict.contains_set_self]

/-- Witness for C9 (amended): the serialized schedule starting with handler
0 on an empty registry registers at most one handler. -/
theorem serialized_inserts_at_most_one_registers_witness :
    ¬((raceRun "alice" 0 1 (RaceState.init [])
        [MicroStep.check0, MicroStep.write0, MicroStep.check1,
         MicroStep.write1]).reg0 = true ∧
      (raceRun "alice" 0 1 (RaceState.init [])
        [MicroStep.check0, MicroStep.write0, MicroStep.check1,
         MicroStep.write1]).reg1 = true) :=
  serialized_inserts_at_most_one_registers [] "alice" 0 1 _ (by decide)

/-- C10: joining an existing room B while the client's room reference is a
different room A sets the reference to B and inserts the client into B's
member dictionary, but performs no removal from A: the client's name stays
in A's member dictionary. -/
theorem join_keeps_previous_room_membership (s : ServerState) (nick : String)
    (c : Client) (A B : String) (usersA usersB : Users) (sock : Nat)
    (hc : PyDict.lookup s.clients nick = some c)
    (hcr : c.room = some A)
    (hAB : ¬A = B)
    (huA : PyDict.lookup s.rooms A = some usersA)
    (huB : PyDict.lookup s.rooms B = some usersB)
    (hmA : PyDict.contains usersA nick = true) :
    ∃ s' ds, Server.join_room s nick (some B) sock = .ok (s', ds) ∧
      PyDict.lookup s'.clients nick = some { c with room := some B } ∧
      PyDict.lookup s'.rooms B = some (PyDict.set usersB nick c.sock) ∧
      PyDict.contains (PyDict.set usersB nick c.sock) nick = true ∧
      PyDict.lookup s'.rooms A = some usersA ∧
      PyDict.contains usersA nick = true := by
  refine ⟨_, _, Server.join_room_ok s nick c B usersB sock hc huB, ?_, ?_, ?_, ?_, hmA⟩
  · exact PyDict.lookup_set_self _ _ _
  · exact PyDict.lookup_set_self _ _ _
  · exact PyDict.contains_set_self _ _ _
  · rw [PyDict.lookup_set, if_neg hAB]
    exact huA

/-- Witness for C10: alice, in room A, joins room B; she is a member of
both A and B afterwards. -/
theorem join_keeps_previous_room_membership_witness :
    ∃ s' ds,
      Server.join_room ⟨[("alice", ⟨0, some "A"⟩)],
                        [("A", [("alice", 0)]), ("B", [])]⟩
          "alice" (some "B") 0 = .ok (s', ds) ∧
      PyDict.lookup s'.clients "alice" = some ⟨0, some "B"⟩ ∧
      PyDict.lookup s'.rooms "B" = some [("alice", 0)] ∧
      PyDict.contains [("alice", (0 : Nat))] "alice" = true ∧
      PyDict.lookup s'.rooms "A" = some [("alice", 0)] ∧
      PyDict.contains [("alice", (0 : Nat))] "alice" = true :=
  join_keeps_previous_room_membership _ "alice" ⟨0, some "A"⟩ "A" "B"
    [("alice", 0)] [] 0 (by decide) rfl (by decide) (by decide) (by decide) (by decide)

/-- Witness for C4 (amended) at a concrete state: alice alone in room A. -/
theorem quit_runs_leave_with_reply_then_quit_success_witness :
    ∃ s1 ds1,
      Server.leave_room ⟨[("alice", ⟨0, some "A"⟩)], [("A", [("alice", 0)])]⟩
          "alice" 0 = .ok (s1, ds1) ∧
      ds1.head? = some (0, "\\leave=success") ∧
      Server.activeStep ⟨[("alice", ⟨0, some "A"⟩)], [("A", [("alice", 0)])]⟩
          "alice" 0 "\\quit" =
        .ok (.halt { s1 with clients := PyDict.eraseKey s1.clients "alice" }
               (ds1 ++ [(0, "\\quit=success")])) ∧
      PyDict.lookup (PyDict.eraseKey s1.clients "alice") "alice" = none :=
  quit_runs_leave_with_reply_then_quit_success _ "alice" ⟨0, some "A"⟩ "A"
    [("alice", 0)] 0 (by decide) rfl (by decide) (by decide)
